import Mathlib

set_option maxHeartbeats 1000000

/-! Verification of the embedding-indexing and similarity-retrieval subsystem of
airplane-chat: the pgvector-backed chunk store (upsert / query / delete /
refresh / schema), the Ollama embedding client, and the prompt assembler.

Embedding vectors (Go `[]float32`) are idealised as lists of rationals, the
`document_chunks` table as a list of rows together with a fresh-id counter
modelling `uuid.New()`, and a transaction as an all-or-nothing update of the
committed state.  `ε` is a failure oracle telling which issued database
statement (numbered in issue order within one call) fails, so that delete,
insert and commit failures are expressible.  Every store operation also
returns the trace of statements it issued, so that claims about when
validation happens relative to I/O are expressible. -/

/-- A row of the `document_chunks` table. -/
structure Row where
  id : Nat
  conversationId : String
  documentId : String
  chunkIndex : Nat
  content : String
  embedding : List ℚ
  createdAt : Nat
  deriving DecidableEq

/-- The committed database state: the rows of `document_chunks` plus a
fresh-id counter modelling uuid generation. -/
structure DB where
  rows : List Row
  nextId : Nat
  deriving DecidableEq

/-- Statements issued to the database by the store. -/
inductive Stmt where
  | beginTx : Stmt
  | deleteChunks : String → String → Stmt
  | insertChunk : Row → Stmt
  | commitTx : Stmt
  | rollbackTx : Stmt
  | queryChunks : String → Stmt
  deriving DecidableEq

/-- The failure oracle that makes every issued statement succeed. -/
def noFail : Nat → Bool := fun _ => false

/-- Does a row belong to the given (conversation, document) pair? -/
def matchesPair (conv doc : String) (r : Row) : Bool :=
  r.conversationId == conv && r.documentId == doc

/-- The chunks currently stored for a (conversation, document) pair. -/
def chunksFor (db : DB) (conv doc : String) : List Row :=
  db.rows.filter (matchesPair conv doc)

/-- The chunks currently stored for a conversation. -/
def chunksOfConv (db : DB) (conv : String) : List Row :=
  db.rows.filter (fun r => r.conversationId == conv)

/-- The rows a successful upsert stores: one row per (content, vector) pair,
with consecutive chunk indices and consecutive fresh ids. -/
def mkRows (conv doc : String) (now : Nat) :
    List (String × List ℚ) → Nat → Nat → List Row
  | [], _, _ => []
  | (c, v) :: rest, i, nid =>
    ⟨nid, conv, doc, i, c, v, now⟩ :: mkRows conv doc now rest (i + 1) (nid + 1)

/-- The insert loop of `UpsertDocumentChunks`: walks the (content, vector)
pairs, checking the dimension of each vector before issuing its INSERT.  Returns
the first error (if any), the rows built, and the trace of issued inserts.
`i` is the chunk index of the head pair, `nid` the next fresh id. -/
def insertLoop (D : Nat) (ε : Nat → Bool) (conv doc : String) (now : Nat) :
    List (String × List ℚ) → Nat → Nat → Option String × List Row × List Stmt
  | [], _, _ => (none, [], [])
  | (c, v) :: rest, i, nid =>
    if v.length ≠ D then
      (some "vector dimension mismatch", [], [])
    else if ε (2 + i) then
      (some "insert chunk", [], [Stmt.insertChunk ⟨nid, conv, doc, i, c, v, now⟩])
    else
      let r : Row := ⟨nid, conv, doc, i, c, v, now⟩
      let res := insertLoop D ε conv doc now rest (i + 1) (nid + 1)
      (res.1, r :: res.2.1, Stmt.insertChunk r :: res.2.2)

/-- Outcome of a store write: the error reported (if any), the committed
database state after the call, and the trace of statements issued. -/
structure WriteResult where
  err : Option String
  db : DB
  trace : List Stmt
  deriving DecidableEq

/-- `Store.UpsertDocumentChunks`: validates the two lengths, then in a single
transaction deletes every row of the (conversation, document) pair and inserts
one row per pair, checking the dimension of each vector just before its insert;
commit makes the new state visible, and any failure rolls the transaction
back, leaving the committed state untouched.  Statement positions for `ε`:
0 = begin, 1 = delete, 2+i = insert of pair i, 2+n = commit. -/
def upsertDocumentChunks (D : Nat) (ε : Nat → Bool) (db : DB) (conv doc : String)
    (contents : List String) (vectors : List (List ℚ)) (now : Nat) : WriteResult :=
  if contents.length ≠ vectors.length then
    ⟨some "contents and vectors length mismatch", db, []⟩
  else if ε 0 then
    ⟨some "begin transaction", db, [Stmt.beginTx]⟩
  else if ε 1 then
    ⟨some "delete existing chunks", db, [Stmt.beginTx, Stmt.deleteChunks conv doc]⟩
  else
    let res := insertLoop D ε conv doc now (contents.zip vectors) 0 db.nextId
    match res.1 with
    | some e =>
      ⟨some e, db,
        Stmt.beginTx :: Stmt.deleteChunks conv doc :: res.2.2 ++ [Stmt.rollbackTx]⟩
    | none =>
      if ε (2 + contents.length) then
        ⟨some "commit transaction", db,
          Stmt.beginTx :: Stmt.deleteChunks conv doc :: res.2.2 ++ [Stmt.commitTx]⟩
      else
        ⟨none,
          ⟨db.rows.filter (fun r => ! matchesPair conv doc r) ++ res.2.1,
            db.nextId + contents.length⟩,
          Stmt.beginTx :: Stmt.deleteChunks conv doc :: res.2.2 ++ [Stmt.commitTx]⟩

/-- `Store.DeleteConversation`: one DELETE scoped to the conversation id.
`ε 0` injects a failure of that statement. -/
def deleteConversation (ε : Nat → Bool) (db : DB) (conv : String) : Option String × DB :=
  if ε 0 then
    (some "delete conversation", db)
  else
    (none, ⟨db.rows.filter (fun r => ! (r.conversationId == conv)), db.nextId⟩)

/-- Outcome of `RefreshDocument`: the error (if any), the committed state, and
which stages ran. -/
structure RefreshResult where
  err : Option String
  db : DB
  chunkCalled : Bool
  embedCalled : Bool
  upsertCalled : Bool
  deriving DecidableEq

/-- `Store.RefreshDocument`: requires both callbacks, runs the chunker, on
zero contents upserts empty lists without embedding, otherwise embeds and
upserts; the callbacks are modelled by their outcomes (`none` = nil Go
function). -/
def refreshDocument (D : Nat) (ε : Nat → Bool) (db : DB) (conv doc : String)
    (chunkFn : Option (Except String (List String)))
    (embedFn : Option (List String → Except String (List (List ℚ))))
    (now : Nat) : RefreshResult :=
  match chunkFn, embedFn with
  | none, _ => ⟨some "chunk function and embed function must be provided", db, false, false, false⟩
  | some _, none => ⟨some "chunk function and embed function must be provided", db, false, false, false⟩
  | some chunkRes, some embedF =>
    match chunkRes with
    | Except.error e => ⟨some ("chunk document: " ++ e), db, true, false, false⟩
    | Except.ok contents =>
      if contents.length = 0 then
        let u := upsertDocumentChunks D ε db conv doc [] [] now
        ⟨u.err, u.db, true, false, true⟩
      else
        match embedF contents with
        | Except.error e => ⟨some ("embed document: " ++ e), db, true, true, false⟩
        | Except.ok vectors =>
          let u := upsertDocumentChunks D ε db conv doc contents vectors now
          ⟨u.err, u.db, true, true, true⟩

example :
    (upsertDocumentChunks 1 noFail ⟨[], 0⟩ "c" "d" ["a", "b"] [[2], [3]] 7).err = none := by
  decide

example :
    chunksFor (upsertDocumentChunks 1 noFail ⟨[], 0⟩ "c" "d" ["a", "b"] [[2], [3]] 7).db "c" "d"
      = [⟨0, "c", "d", 0, "a", [2], 7⟩, ⟨1, "c", "d", 1, "b", [3], 7⟩] := by
  decide

example :
    (upsertDocumentChunks 1 noFail ⟨[], 0⟩ "c" "d" ["a"] [[2, 3]] 7).trace
      = [Stmt.beginTx, Stmt.deleteChunks "c" "d", Stmt.rollbackTx] := by
  decide

/-! The similarity query.  The pgvector `<=>` operator is cosine distance
`1 - (a . b) / (|a| |b|)`; the SQL orders ascending by it and computes the
score column `1 - (embedding <=> query)`.  The comparator is made executable
over rationals by sign analysis and squaring, and is related below to the
real-valued cosine distance. -/

/-- Dot product of two vectors. -/
def dotQ : List ℚ → List ℚ → ℚ
  | [], _ => 0
  | _, [] => 0
  | a :: as, b :: bs => a * b + dotQ as bs

/-- Squared euclidean norm of a vector. -/
def sqNorm (v : List ℚ) : ℚ := dotQ v v

/-- Decides `y * sqrt p ≤ x * sqrt s` for rationals with `p, s ≥ 0`, by sign
analysis and squaring. -/
def rootCmpLE (y x p s : ℚ) : Bool :=
  if y ≤ 0 then
    if 0 ≤ x then true else x ^ 2 * s ≤ y ^ 2 * p
  else
    if x < 0 then false else y ^ 2 * p ≤ x ^ 2 * s

/-- Decides "row `a` is at most as far from query `q` as row `b` is", in
cosine distance: `1 - xa/(sqrt pa * sqrt r) ≤ 1 - xb/(sqrt pb * sqrt r)`
reduces (for positive norms) to `xb * sqrt pa ≤ xa * sqrt pb`. -/
def distLE (q : List ℚ) (a b : Row) : Bool :=
  rootCmpLE (dotQ q b.embedding) (dotQ q a.embedding) (sqNorm a.embedding) (sqNorm b.embedding)

/-- Insert into a list keeping it sorted for the Bool comparator `le`. -/
def insertLe (le : α → α → Bool) (a : α) : List α → List α
  | [] => [a]
  | b :: bs => if le a b then a :: b :: bs else b :: insertLe le a bs

/-- Insertion sort by the Bool comparator `le`; models SQL `ORDER BY`. -/
def sortLe (le : α → α → Bool) : List α → List α
  | [] => []
  | a :: as => insertLe le a (sortLe le as)

/-- Real-valued cosine distance between two rational vectors, as computed by
the pgvector `<=>` operator. -/
noncomputable def cosDist (q v : List ℚ) : ℝ :=
  1 - (dotQ q v : ℝ) / (Real.sqrt (sqNorm q : ℚ) * Real.sqrt (sqNorm v : ℚ))

/-- The `score` column of the similarity query: `1 - (embedding <=> $1)`. -/
noncomputable def queryScore (q : List ℚ) (r : Row) : ℝ := 1 - cosDist q r.embedding

/-- `Store.QuerySimilar`: validates the dimension of the query vector before
any I/O, then returns up to `limit` of the rows of the conversation ordered by
ascending cosine distance to the query.  Also returns the trace of issued
statements. -/
def querySimilar (D : Nat) (db : DB) (conv : String) (q : List ℚ) (limit : Nat) :
    Except String (List Row) × List Stmt :=
  if q.length ≠ D then
    (Except.error "embedding dimension mismatch", [])
  else
    (Except.ok ((sortLe (distLE q) (chunksOfConv db conv)).take limit),
      [Stmt.queryChunks conv])

/-! The prompt assembler (`buildPrompt` in the server package).  Go strings
are modelled as lists of characters; `len` and slicing act on that list. -/

/-- A role-tagged chat message with its content as a character list. -/
structure ChatMsg where
  role : String
  content : List Char
  deriving DecidableEq

/-- `trimToLimit`: returns the text unchanged when within the limit, else its
first `limit` characters. -/
def trimToLimit (text : List Char) (limit : Nat) : List Char :=
  if text.length ≤ limit then text else text.take limit

/-- The candidate-selection loop of `buildPrompt`: skip empty truncations,
stop as soon as the next truncated candidate would push the running total of
included characters past 24000, else include it.  `total` is the running
total. -/
def selectDocs : List (List Char) → Nat → List (List Char)
  | [], _ => []
  | text :: rest, total =>
    let trimmed := trimToLimit text 8000
    if trimmed = [] then selectDocs rest total
    else if total + trimmed.length > 24000 then []
    else trimmed :: selectDocs rest (total + trimmed.length)

/-- The fixed instruction preamble of the system message. -/
def systemBase : List Char :=
  "You are a helpful assistant. Answer the user\u0027s question using the conversation history".toList

/-- Renders the selected documents into the system message body:
`Document N:\n<doc>\n\n` for N starting at 1. -/
def docBlock : List (List Char) → Nat → List Char
  | [], _ => []
  | d :: ds, i =>
    "Document ".toList ++ (toString (i + 1)).toList ++ ":\n".toList ++ d
      ++ "\n\n".toList ++ docBlock ds (i + 1)

/-- Assembles the full message list from an already-selected document pool
and the history: one system message first, then the history verbatim. -/
def renderPrompt (docs : List (List Char)) (history : List ChatMsg) : List ChatMsg :=
  let systemContent :=
    if docs.length > 0 then
      systemBase ++ " and the following reference documents.\n\n".toList ++ docBlock docs 0
    else systemBase
  ⟨"system", systemContent⟩ :: history.map (fun m => ⟨m.role, m.content⟩)

/-- `buildPrompt`: selects candidate texts under the character budgets (8000
per candidate, 24000 combined) and assembles system message plus history.
`texts = none` models a nil store or a failed `LoadDocumentTexts`. -/
def buildPrompt (history : List ChatMsg) (texts : Option (List (List Char))) : List ChatMsg :=
  let docMessages :=
    match texts with
    | none => []
    | some ts => selectDocs ts 0
  renderPrompt docMessages history

/-- Spec-side truncation: the first 8000 characters of a candidate. -/
def truncSpec (t : List Char) : List Char := t.take 8000

/-- Spec-side greedy fill: append candidates in order, stopping at the first
whose length would push the running total past 24000. -/
def greedyTake : Nat → List (List Char) → List (List Char)
  | _, [] => []
  | total, t :: ts =>
    if total + t.length > 24000 then [] else t :: greedyTake (total + t.length) ts

/-- The candidate pool C4 describes, read literally: truncate every candidate
to 8000 characters, then fill greedily under the combined 24000 budget. -/
def specSelectStated (texts : List (List Char)) : List (List Char) :=
  greedyTake 0 (texts.map truncSpec)

/-- The amended candidate pool: as `specSelectStated`, except that candidates
that are empty after truncation are skipped entirely. -/
def specSelectAmended (texts : List (List Char)) : List (List Char) :=
  greedyTake 0 ((texts.map truncSpec).filter (fun t => ! t.isEmpty))

/-- Total character count of a list of texts. -/
def totalLen (l : List (List Char)) : Nat :=
  List.foldr (fun (s : List Char) n => s.length + n) 0 l

/-! The Ollama embedder (`ollamaEmbedder.Embed`): one request per text, in
order; a transport or decode failure aborts the whole call, and with a
non-zero configured dimension any decoded vector of another length aborts the
whole call. -/

/-- Outcome of one embedding request: a transport/decode failure, or the
decoded embedding. -/
inductive FetchResult where
  | failure : String → FetchResult
  | success : List ℚ → FetchResult
  deriving DecidableEq

/-- Is the outcome a failure? -/
def FetchResult.isFailure : FetchResult → Bool
  | FetchResult.failure _ => true
  | FetchResult.success _ => false

/-- `ollamaEmbedder.Embed`: issues one request per text sequentially; the
first failure, or (when `dim > 0`) the first decoded vector whose length is
not `dim`, aborts the whole call. -/
def embed (dim : Nat) (fetch : String → FetchResult) : List String → Except String (List (List ℚ))
  | [] => Except.ok []
  | t :: ts =>
    match fetch t with
    | FetchResult.failure e => Except.error ("call ollama embeddings API: " ++ e)
    | FetchResult.success vec =>
      if dim > 0 ∧ vec.length ≠ dim then
        Except.error "ollama embedding dimension mismatch"
      else
        match embed dim fetch ts with
        | Except.error e => Except.error e
        | Except.ok rest => Except.ok (vec :: rest)

/-! Schema creation (`Store.ensureSchema`): the whole statement batch runs in
one `Exec`; on error, the error is swallowed exactly when its message
contains the substring `ivfflat`. -/

/-- Which statement of the schema batch an error originated from. -/
inductive SchemaStep where
  | createExtension : SchemaStep
  | createTable : SchemaStep
  | createPlainIndexes : SchemaStep
  | createIvfIndex : SchemaStep
  deriving DecidableEq

/-- An error reported by the schema batch: its originating statement and its
message.  The Go error value carries only the message. -/
structure SchemaError where
  origin : SchemaStep
  msg : String
  deriving DecidableEq

/-- Does `pat` occur at the start of `s`? -/
def startsL : List Char → List Char → Bool
  | [], _ => true
  | _ :: _, [] => false
  | a :: as, b :: bs => a == b && startsL as bs

/-- Does `pat` occur anywhere in `s`?  (`strings.Contains`.) -/
def containsL (pat : List Char) : List Char → Bool
  | [] => startsL pat []
  | c :: rest => startsL pat (c :: rest) || containsL pat rest

/-- `strings.Contains(msg, "ivfflat")`. -/
def mentionsIvfflat (msg : String) : Bool :=
  containsL "ivfflat".toList msg.toList

/-- `Store.ensureSchema`: runs the batch; a resulting error is swallowed
exactly when its message contains `ivfflat`, otherwise it is propagated.
`outcome` is the result of the batch. -/
def ensureSchema (outcome : Option SchemaError) : Option String :=
  match outcome with
  | none => none
  | some e => if mentionsIvfflat e.msg then none else some e.msg

example : ensureSchema (some ⟨SchemaStep.createIvfIndex, "ivfflat needs rows"⟩) = none := by
  decide

example :
    ensureSchema (some ⟨SchemaStep.createTable, "syntax error"⟩) = some "syntax error" := by
  decide

example : embed 2 (fun _ => FetchResult.success [1, 2]) ["a", "b"]
    = Except.ok [[1, 2], [1, 2]] := rfl

example :
    buildPrompt [⟨"user", "hi".toList⟩] (some ["doc one".toList])
      = renderPrompt ["doc one".toList] [⟨"user", "hi".toList⟩] := by
  decide

example : (querySimilar 1 ⟨[], 0⟩ "c" [3] 5).1 = Except.ok [] := rfl

/-! Helper lemmas about the store operations. -/

theorem mkRows_length (conv doc : String) (now : Nat) :
    ∀ (pairs : List (String × List ℚ)) (i nid : Nat),
      (mkRows conv doc now pairs i nid).length = pairs.length := by
  intro pairs
  induction pairs with
  | nil => intro i nid; rfl
  | cons p rest ih =>
    intro i nid
    cases p with
    | mk c v => simp [mkRows, ih]

theorem mkRows_get (conv doc : String) (now : Nat) :
    ∀ (pairs : List (String × List ℚ)) (i nid k : Nat), k < pairs.length →
      (mkRows conv doc now pairs i nid).get? k =
        some ⟨nid + k, conv, doc, i + k, (pairs.getD k ("", [])).1,
          (pairs.getD k ("", [])).2, now⟩ := by
  intro pairs
  induction pairs with
  | nil => intro i nid k hk; simp at hk
  | cons p rest ih =>
    intro i nid k hk
    cases p with
    | mk c v =>
      cases k with
      | zero => simp [mkRows]
      | succ k =>
        have hk2 : k < rest.length := by simpa using hk
        have heq := ih (i + 1) (nid + 1) k hk2
        have h1 : nid + 1 + k = nid + (k + 1) := by omega
        have h2 : i + 1 + k = i + (k + 1) := by omega
        rw [h1, h2] at heq
        simp only [mkRows, List.get?_cons_succ, List.getD_cons_succ, heq]

theorem mem_mkRows (conv doc : String) (now : Nat) :
    ∀ (pairs : List (String × List ℚ)) (i nid : Nat) (r : Row),
      r ∈ mkRows conv doc now pairs i nid →
        r.conversationId = conv ∧ r.documentId = doc ∧ nid ≤ r.id := by
  intro pairs
  induction pairs with
  | nil => intro i nid r hr; simp [mkRows] at hr
  | cons p rest ih =>
    intro i nid r hr
    cases p with
    | mk c v =>
      simp only [mkRows, List.mem_cons] at hr
      rcases hr with h | h
      · subst h; exact ⟨rfl, rfl, Nat.le_refl _⟩
      · have := ih (i + 1) (nid + 1) r h
        exact ⟨this.1, this.2.1, by omega⟩

theorem insertLoop_ok_rows (D : Nat) (ε : Nat → Bool) (conv doc : String) (now : Nat) :
    ∀ (pairs : List (String × List ℚ)) (i nid : Nat),
      (insertLoop D ε conv doc now pairs i nid).1 = none →
        (insertLoop D ε conv doc now pairs i nid).2.1 = mkRows conv doc now pairs i nid := by
  intro pairs
  induction pairs with
  | nil => intro i nid _; rfl
  | cons p rest ih =>
    intro i nid h
    cases p with
    | mk c v =>
      by_cases hd : v.length ≠ D
      · simp [insertLoop, hd] at h
      · by_cases he : ε (2 + i)
        · simp [insertLoop, hd, he] at h
        · simp only [insertLoop, if_neg hd, if_neg he] at h ⊢
          simp only [mkRows]
          exact congrArg _ (ih (i + 1) (nid + 1) h)

theorem insertLoop_bad_vec (D : Nat) (ε : Nat → Bool) (conv doc : String) (now : Nat) :
    ∀ (pairs : List (String × List ℚ)) (i nid : Nat) (c : String) (v : List ℚ),
      (c, v) ∈ pairs → v.length ≠ D →
        (insertLoop D ε conv doc now pairs i nid).1 ≠ none := by
  intro pairs
  induction pairs with
  | nil => intro i nid c v hm _; simp at hm
  | cons p rest ih =>
    intro i nid c v hm hv
    cases p with
    | mk c0 v0 =>
      by_cases hd : v0.length ≠ D
      · simp [insertLoop, hd]
      · by_cases he : ε (2 + i)
        · simp [insertLoop, hd, he]
        · simp only [insertLoop, if_neg hd, if_neg he]
          rcases List.mem_cons.mp hm with h | h
          · exfalso; injection h with h1 h2; exact hd (h2 ▸ hv)
          · exact ih (i + 1) (nid + 1) c v h hv

theorem upsert_err_db (D : Nat) (ε : Nat → Bool) (db : DB) (conv doc : String)
    (contents : List String) (vectors : List (List ℚ)) (now : Nat) :
    (upsertDocumentChunks D ε db conv doc contents vectors now).err.isSome →
      (upsertDocumentChunks D ε db conv doc contents vectors now).db = db := by
  unfold upsertDocumentChunks
  by_cases h1 : contents.length ≠ vectors.length
  · simp [h1]
  · by_cases h2 : ε 0
    · simp [h1, h2]
    · by_cases h3 : ε 1
      · simp [h1, h2, h3]
      · simp only [if_neg h1, if_neg h2, if_neg h3]
        cases hres : (insertLoop D ε conv doc now (contents.zip vectors) 0 db.nextId).1 with
        | some e => simp [hres]
        | none =>
          by_cases h4 : ε (2 + contents.length)
          · simp [hres, h4]
          · simp [hres, h4]

theorem upsert_ok_shape (D : Nat) (ε : Nat → Bool) (db : DB) (conv doc : String)
    (contents : List String) (vectors : List (List ℚ)) (now : Nat) :
    (upsertDocumentChunks D ε db conv doc contents vectors now).err = none →
      contents.length = vectors.length ∧
      (upsertDocumentChunks D ε db conv doc contents vectors now).db =
        ⟨db.rows.filter (fun r => ! matchesPair conv doc r)
            ++ mkRows conv doc now (contents.zip vectors) 0 db.nextId,
          db.nextId + contents.length⟩ := by
  unfold upsertDocumentChunks
  by_cases h1 : contents.length ≠ vectors.length
  · simp [h1]
  · by_cases h2 : ε 0
    · simp [h1, h2]
    · by_cases h3 : ε 1
      · simp [h1, h2, h3]
      · simp only [if_neg h1, if_neg h2, if_neg h3]
        cases hres : (insertLoop D ε conv doc now (contents.zip vectors) 0 db.nextId).1 with
        | some e => simp [hres]
        | none =>
          by_cases h4 : ε (2 + contents.length)
          · simp [hres, h4]
          · intro _
            refine ⟨by omega, ?_⟩
            simp only [hres, if_neg h4]
            rw [insertLoop_ok_rows D ε conv doc now (contents.zip vectors) 0 db.nextId hres]

theorem filter_filter_of_imp {α : Type} {p q : α → Bool} (h : ∀ a, q a = true → p a = true) :
    ∀ l : List α, (l.filter p).filter q = l.filter q := by
  intro l
  induction l with
  | nil => rfl
  | cons a l ih =>
    by_cases hp : p a = true
    · by_cases hq : q a = true <;> simp [List.filter_cons, hp, hq, ih]
    · have hq : q a = false := by
        cases hqa : q a
        · rfl
        · exact absurd (h a hqa) hp
      simp [List.filter_cons, hp, hq, ih]

theorem filter_filter_disjoint {α : Type} {p q : α → Bool} (h : ∀ a, q a = true → p a = false) :
    ∀ l : List α, (l.filter p).filter q = [] := by
  intro l
  induction l with
  | nil => rfl
  | cons a l ih =>
    by_cases hp : p a = true
    · have hq : q a = false := by
        cases hqa : q a
        · rfl
        · rw [h a hqa] at hp; exact absurd hp (by simp)
      simp [List.filter_cons, hp, hq, ih]
    · simp [List.filter_cons, hp, ih]

theorem mem_zip_right {α β : Type} :
    ∀ (l1 : List α) (l2 : List β), l1.length = l2.length →
      ∀ b ∈ l2, ∃ a, (a, b) ∈ l1.zip l2 := by
  intro l1
  induction l1 with
  | nil =>
    intro l2 hlen b hb
    cases l2 with
    | nil => simp at hb
    | cons x xs => simp at hlen
  | cons a as ih =>
    intro l2 hlen b hb
    cases l2 with
    | nil => simp at hb
    | cons x xs =>
      rcases List.mem_cons.mp hb with h | h
      · exact ⟨a, by simp [h]⟩
      · obtain ⟨a2, ha2⟩ := ih xs (by simpa using hlen) b h
        exact ⟨a2, by simp [List.zip_cons_cons, ha2]⟩

theorem zip_getD {α β : Type} (da : α) (db : β) :
    ∀ (l1 : List α) (l2 : List β), l1.length = l2.length →
      ∀ k, k < l1.length →
        (l1.zip l2).getD k (da, db) = (l1.getD k da, l2.getD k db) := by
  intro l1
  induction l1 with
  | nil => intro l2 hlen k hk; simp at hk
  | cons a as ih =>
    intro l2 hlen k hk
    cases l2 with
    | nil => simp at hlen
    | cons x xs =>
      cases k with
      | zero => simp
      | succ k =>
        have h := ih xs (by simpa using hlen) k (by simpa using hk)
        simp only [List.zip_cons_cons, List.getD_cons_succ]
        exact h

theorem matchesPair_iff (conv doc : String) (r : Row) :
    matchesPair conv doc r = true ↔ r.conversationId = conv ∧ r.documentId = doc := by
  simp [matchesPair]

theorem upsert_ok_chunksFor (D : Nat) (ε : Nat → Bool) (db : DB) (conv doc : String)
    (contents : List String) (vectors : List (List ℚ)) (now : Nat)
    (hok : (upsertDocumentChunks D ε db conv doc contents vectors now).err = none) :
    chunksFor (upsertDocumentChunks D ε db conv doc contents vectors now).db conv doc
      = mkRows conv doc now (contents.zip vectors) 0 db.nextId := by
  have hdb := (upsert_ok_shape D ε db conv doc contents vectors now hok).2
  rw [hdb]
  unfold chunksFor
  simp only [List.filter_append]
  rw [filter_filter_disjoint (fun a ha => by simp [ha]) db.rows]
  rw [List.nil_append]
  apply List.filter_eq_self.mpr
  intro r hr
  have := mem_mkRows conv doc now (contents.zip vectors) 0 db.nextId r hr
  exact (matchesPair_iff conv doc r).mpr ⟨this.1, this.2.1⟩

theorem filter_eq_nil_of {α : Type} {p : α → Bool} :
    ∀ l : List α, (∀ a ∈ l, p a = false) → l.filter p = [] := by
  intro l h
  induction l with
  | nil => rfl
  | cons a l ih =>
    have ha := h a (List.mem_cons_self a l)
    simp only [List.filter_cons, ha, Bool.false_eq_true, if_false]
    exact ih (fun b hb => h b (List.mem_cons_of_mem a hb))

/-- C1: for equal-length contents and vectors, a successful
`UpsertDocumentChunks(conversationId, documentId, contents, vectors)` leaves
the chunk set for the pair equal to exactly one chunk per (content, vector)
pair in input order, the k-th pair stored with chunk index k, with every
previously stored chunk of the pair removed; in particular with empty inputs
it leaves zero chunks for the pair. -/
theorem C1_upsert_replaces_chunk_set (D : Nat) (ε : Nat → Bool) (db : DB)
    (conv doc : String) (contents : List String) (vectors : List (List ℚ)) (now : Nat)
    (hok : (upsertDocumentChunks D ε db conv doc contents vectors now).err = none)
    (hfresh : ∀ r ∈ db.rows, r.id < db.nextId) :
    (chunksFor (upsertDocumentChunks D ε db conv doc contents vectors now).db conv doc).length
        = contents.length ∧
    (∀ k, k < contents.length →
      (chunksFor (upsertDocumentChunks D ε db conv doc contents vectors now).db conv doc).get? k
        = some ⟨db.nextId + k, conv, doc, k, contents.getD k "", vectors.getD k [], now⟩) ∧
    (∀ r ∈ db.rows, matchesPair conv doc r = true →
      r ∉ (upsertDocumentChunks D ε db conv doc contents vectors now).db.rows) ∧
    (contents = [] →
      chunksFor (upsertDocumentChunks D ε db conv doc contents vectors now).db conv doc = []) ∧
    (upsertDocumentChunks D noFail db conv doc [] [] now).err = none := by
  have hlen := (upsert_ok_shape D ε db conv doc contents vectors now hok).1
  have hdb := (upsert_ok_shape D ε db conv doc contents vectors now hok).2
  have hch := upsert_ok_chunksFor D ε db conv doc contents vectors now hok
  have hziplen : (contents.zip vectors).length = contents.length := by
    rw [List.length_zip]; omega
  refine ⟨?_, ?_, ?_, ?_, ?_⟩
  · rw [hch, mkRows_length, hziplen]
  · intro k hk
    rw [hch, mkRows_get conv doc now (contents.zip vectors) 0 db.nextId k (by omega)]
    rw [zip_getD "" [] contents vectors hlen k hk]
    simp
  · intro r hr hm hmem
    rw [hdb] at hmem
    have hmem2 : r ∈ db.rows.filter (fun s => ! matchesPair conv doc s)
        ++ mkRows conv doc now (contents.zip vectors) 0 db.nextId := hmem
    rcases List.mem_append.mp hmem2 with h | h
    · have := List.of_mem_filter h
      simp [hm] at this
    · have h1 := (mem_mkRows conv doc now (contents.zip vectors) 0 db.nextId r h).2.2
      have h2 := hfresh r hr
      omega
  · intro hc
    subst hc
    rw [hch]
    rfl
  · simp [upsertDocumentChunks, insertLoop, noFail]

/-- Witness for C1: a concrete two-chunk upsert over a store holding a stale
chunk of the same pair succeeds, and the conclusion of the claim holds there. -/
theorem C1_witness :
    (upsertDocumentChunks 1 noFail ⟨[⟨0, "c", "d", 0, "old", [9], 1⟩], 1⟩ "c" "d"
        ["x", "y"] [[2], [3]] 5).err = none ∧
    (∀ r ∈ ([⟨0, "c", "d", 0, "old", [9], 1⟩] : List Row), r.id < 1) ∧
    (chunksFor (upsertDocumentChunks 1 noFail ⟨[⟨0, "c", "d", 0, "old", [9], 1⟩], 1⟩ "c" "d"
        ["x", "y"] [[2], [3]] 5).db "c" "d").length = (["x", "y"] : List String).length :=
  ⟨by decide, by decide,
    (C1_upsert_replaces_chunk_set 1 noFail ⟨[⟨0, "c", "d", 0, "old", [9], 1⟩], 1⟩ "c" "d"
      ["x", "y"] [[2], [3]] 5 (by decide) (by decide)).1⟩

/-- C2: every call to UpsertDocumentChunks that returns an error leaves the
committed store state exactly what it was before the call, whichever stage
(length validation, begin, delete, a dimension check, an insert, or commit)
failed. -/
theorem C2_upsert_error_is_rollback (D : Nat) (ε : Nat → Bool) (db : DB)
    (conv doc : String) (contents : List String) (vectors : List (List ℚ)) (now : Nat)
    (e : String)
    (herr : (upsertDocumentChunks D ε db conv doc contents vectors now).err = some e) :
    (upsertDocumentChunks D ε db conv doc contents vectors now).db = db :=
  upsert_err_db D ε db conv doc contents vectors now (by rw [herr]; rfl)

/-- Witness for C2: a dimension-mismatched call errors and leaves the store
unchanged. -/
theorem C2_witness :
    (upsertDocumentChunks 1 noFail ⟨[⟨0, "c", "d", 0, "old", [9], 1⟩], 1⟩ "c" "d"
        ["x"] [[2, 3]] 5).err = some "vector dimension mismatch" ∧
    (upsertDocumentChunks 1 noFail ⟨[⟨0, "c", "d", 0, "old", [9], 1⟩], 1⟩ "c" "d"
        ["x"] [[2, 3]] 5).db = ⟨[⟨0, "c", "d", 0, "old", [9], 1⟩], 1⟩ :=
  ⟨by decide,
    C2_upsert_error_is_rollback 1 noFail ⟨[⟨0, "c", "d", 0, "old", [9], 1⟩], 1⟩ "c" "d"
      ["x"] [[2, 3]] 5 "vector dimension mismatch" (by decide)⟩

/-- C3 counterexample: an upsert whose only vector has the wrong dimension
does fail and does commit nothing, but its validation is not rejected before
any I/O: the begin and the delete statement are issued first, so the trace is
not empty and the claim as stated is false at this input. -/
theorem C3_counterexample :
    ¬ ((upsertDocumentChunks 1 noFail ⟨[], 0⟩ "c" "d" ["a"] [[1, 2]] 7).err.isSome = true
        ∧ (upsertDocumentChunks 1 noFail ⟨[], 0⟩ "c" "d" ["a"] [[1, 2]] 7).db = ⟨[], 0⟩
        ∧ (upsertDocumentChunks 1 noFail ⟨[], 0⟩ "c" "d" ["a"] [[1, 2]] 7).trace = []) := by
  decide

/-- C3 (amended): every store operation taking a vector of length other than
D fails and performs no committed write; QuerySimilar additionally rejects
the bad query vector before issuing any I/O, while UpsertDocumentChunks
checks each vector only inside the transaction, after issuing the delete,
which is rolled back. -/
theorem C3_amended_wrong_dimension (D : Nat) (ε : Nat → Bool) (db : DB)
    (conv doc : String) (contents : List String) (vectors : List (List ℚ)) (now : Nat)
    (q : List ℚ) (limit : Nat) :
    (∀ v ∈ vectors, v.length ≠ D →
      (upsertDocumentChunks D ε db conv doc contents vectors now).err.isSome = true ∧
      (upsertDocumentChunks D ε db conv doc contents vectors now).db = db) ∧
    (q.length ≠ D →
      (querySimilar D db conv q limit).1 = Except.error "embedding dimension mismatch" ∧
      (querySimilar D db conv q limit).2 = []) := by
  constructor
  · intro v hv hlen
    have herr : (upsertDocumentChunks D ε db conv doc contents vectors now).err.isSome = true := by
      unfold upsertDocumentChunks
      by_cases h1 : contents.length ≠ vectors.length
      · simp [h1]
      · by_cases h2 : ε 0
        · simp [h1, h2]
        · by_cases h3 : ε 1
          · simp [h1, h2, h3]
          · simp only [if_neg h1, if_neg h2, if_neg h3]
            obtain ⟨c, hc⟩ := mem_zip_right contents vectors (by omega) v hv
            have hbad := insertLoop_bad_vec D ε conv doc now (contents.zip vectors) 0
              db.nextId c v hc hlen
            cases hres : (insertLoop D ε conv doc now (contents.zip vectors) 0 db.nextId).1 with
            | some e => simp [hres]
            | none => exact absurd hres hbad
    exact ⟨herr, upsert_err_db D ε db conv doc contents vectors now herr⟩
  · intro hq
    simp [querySimilar, hq]

/-- Witness for C3 (amended) at a concrete wrong-dimension vector and query. -/
theorem C3_amended_witness :
    (([1, 2] : List ℚ) ∈ ([[1, 2]] : List (List ℚ)) ∧ ([1, 2] : List ℚ).length ≠ 1 ∧
      (upsertDocumentChunks 1 noFail ⟨[], 0⟩ "c" "d" ["a"] [[1, 2]] 7).err.isSome = true) ∧
    (([5, 6] : List ℚ).length ≠ 1 ∧
      (querySimilar 1 ⟨[], 0⟩ "c" [5, 6] 3).2 = []) :=
  ⟨⟨by decide, by decide,
      ((C3_amended_wrong_dimension 1 noFail ⟨[], 0⟩ "c" "d" ["a"] [[1, 2]] 7 [5, 6] 3).1
        [1, 2] (by decide) (by decide)).1⟩,
    ⟨by decide,
      ((C3_amended_wrong_dimension 1 noFail ⟨[], 0⟩ "c" "d" ["a"] [[1, 2]] 7 [5, 6] 3).2
        (by decide)).2⟩⟩

/-- C8: DeleteConversation removes every chunk of the conversation and
reports no error even when none exist; it is idempotent, and a QuerySimilar
for that conversation with any dimension-D query vector afterwards returns an
empty result without error. -/
theorem C8_delete_conversation_clears (db : DB) (conv : String) (D : Nat)
    (q : List ℚ) (limit : Nat) :
    (deleteConversation noFail db conv).1 = none ∧
    chunksOfConv (deleteConversation noFail db conv).2 conv = [] ∧
    (deleteConversation noFail (deleteConversation noFail db conv).2 conv).2
      = (deleteConversation noFail db conv).2 ∧
    (q.length = D →
      (querySimilar D (deleteConversation noFail db conv).2 conv q limit).1
        = Except.ok []) := by
  have hclear : chunksOfConv (deleteConversation noFail db conv).2 conv = [] := by
    simp only [deleteConversation, noFail, Bool.false_eq_true, if_false]
    exact filter_filter_disjoint (fun a ha => by simp [ha]) db.rows
  refine ⟨rfl, hclear, ?_, ?_⟩
  · have hidem : (db.rows.filter (fun r => ! (r.conversationId == conv))).filter
        (fun r => ! (r.conversationId == conv))
        = db.rows.filter (fun r => ! (r.conversationId == conv)) :=
      List.filter_eq_self.mpr (fun a ha => (List.mem_filter.mp ha).2)
    simp [deleteConversation, noFail, hidem]
  · intro hq
    have hq2 : ¬ q.length ≠ D := by omega
    simp only [querySimilar, if_neg hq2, hclear]
    simp [sortLe]

/-- Witness for C8: the post-delete query with a valid-dimension vector is
empty at a concrete store. -/
theorem C8_witness :
    ([4] : List ℚ).length = 1 ∧
    (querySimilar 1 (deleteConversation noFail
        ⟨[⟨0, "c", "d", 0, "a", [2], 1⟩, ⟨1, "e", "f", 0, "b", [3], 1⟩], 2⟩ "c").2
      "c" [4] 3).1 = Except.ok [] :=
  ⟨by decide,
    (C8_delete_conversation_clears
        ⟨[⟨0, "c", "d", 0, "a", [2], 1⟩, ⟨1, "e", "f", 0, "b", [3], 1⟩], 2⟩ "c" 1 [4] 3).2.2.2
      (by decide)⟩

/-- C10: store writes are scoped to their key arguments: an upsert for one
(conversation, document) pair leaves the chunks of every other pair
unchanged, and deleting one conversation leaves the chunks of every other
conversation unchanged, whether or not the write succeeds. -/
theorem C10_writes_are_scoped (D : Nat) (ε : Nat → Bool) (db : DB)
    (conv doc conv2 doc2 : String) (contents : List String) (vectors : List (List ℚ))
    (now : Nat) :
    (¬ (conv2 = conv ∧ doc2 = doc) →
      chunksFor (upsertDocumentChunks D ε db conv doc contents vectors now).db conv2 doc2
        = chunksFor db conv2 doc2) ∧
    (conv2 ≠ conv →
      chunksOfConv (deleteConversation ε db conv).2 conv2 = chunksOfConv db conv2) := by
  constructor
  · intro hne
    cases herr : (upsertDocumentChunks D ε db conv doc contents vectors now).err with
    | some e =>
      rw [upsert_err_db D ε db conv doc contents vectors now (by rw [herr]; rfl)]
    | none =>
      rw [(upsert_ok_shape D ε db conv doc contents vectors now herr).2]
      show (db.rows.filter (fun r => ! matchesPair conv doc r)
          ++ mkRows conv doc now (contents.zip vectors) 0 db.nextId).filter
            (matchesPair conv2 doc2) = chunksFor db conv2 doc2
      rw [List.filter_append]
      have h1 : (db.rows.filter (fun r => ! matchesPair conv doc r)).filter
          (matchesPair conv2 doc2) = db.rows.filter (matchesPair conv2 doc2) := by
        apply filter_filter_of_imp
        intro a ha
        have h2 := (matchesPair_iff conv2 doc2 a).mp ha
        have h3 : matchesPair conv doc a = false := by
          cases hm : matchesPair conv doc a
          · rfl
          · have h4 := (matchesPair_iff conv doc a).mp hm
            exact absurd ⟨by rw [← h2.1, h4.1], by rw [← h2.2, h4.2]⟩ hne
        simp [h3]
      have h2 : (mkRows conv doc now (contents.zip vectors) 0 db.nextId).filter
          (matchesPair conv2 doc2) = [] := by
        apply filter_eq_nil_of
        intro a ha
        have h3 := mem_mkRows conv doc now (contents.zip vectors) 0 db.nextId a ha
        cases hm : matchesPair conv2 doc2 a
        · rfl
        · have h4 := (matchesPair_iff conv2 doc2 a).mp hm
          exact absurd ⟨by rw [← h4.1, h3.1], by rw [← h4.2, h3.2.1]⟩ hne
      rw [h1, h2, List.append_nil]
      rfl
  · intro hne
    by_cases hf : ε 0
    · simp [deleteConversation, hf]
    · simp only [deleteConversation, if_neg hf]
      show (db.rows.filter (fun r => ! (r.conversationId == conv))).filter
          (fun r => r.conversationId == conv2) = chunksOfConv db conv2
      apply filter_filter_of_imp
      intro a ha
      have h2 : a.conversationId = conv2 := by simpa using ha
      simp [h2, hne]

/-- Witness for C10: a write to one pair leaves the chunks of a concrete
other pair, and the chunks of another conversation, unchanged. -/
theorem C10_witness :
    (¬ (("e" : String) = "c" ∧ ("f" : String) = "d") ∧
      chunksFor (upsertDocumentChunks 1 noFail
          ⟨[⟨0, "e", "f", 0, "a", [2], 1⟩], 1⟩ "c" "d" ["x"] [[3]] 5).db "e" "f"
        = chunksFor ⟨[⟨0, "e", "f", 0, "a", [2], 1⟩], 1⟩ "e" "f") ∧
    (("e" : String) ≠ "c" ∧
      chunksOfConv (deleteConversation noFail
          ⟨[⟨0, "e", "f", 0, "a", [2], 1⟩], 1⟩ "c").2 "e"
        = chunksOfConv ⟨[⟨0, "e", "f", 0, "a", [2], 1⟩], 1⟩ "e") :=
  ⟨⟨by decide,
      (C10_writes_are_scoped 1 noFail ⟨[⟨0, "e", "f", 0, "a", [2], 1⟩], 1⟩
        "c" "d" "e" "f" ["x"] [[3]] 5).1 (by decide)⟩,
    ⟨by decide,
      (C10_writes_are_scoped 1 noFail ⟨[⟨0, "e", "f", 0, "a", [2], 1⟩], 1⟩
        "c" "d" "e" "f" ["x"] [[3]] 5).2 (by decide)⟩⟩

theorem embed_ok_spec (dim : Nat) (fetch : String → FetchResult) :
    ∀ (texts : List String) (vs : List (List ℚ)), embed dim fetch texts = Except.ok vs →
      vs.length = texts.length ∧
      ∀ k, k < texts.length → fetch (texts.getD k "") = FetchResult.success (vs.getD k []) := by
  intro texts
  induction texts with
  | nil =>
    intro vs h
    simp only [embed] at h
    injection h with h
    subst h
    exact ⟨rfl, fun k hk => absurd hk (by simp)⟩
  | cons t ts ih =>
    intro vs h
    simp only [embed] at h
    rw [show fetch t = fetch t from rfl] at h
    cases hf : fetch t with
    | failure e => rw [hf] at h; simp at h
    | success vec =>
      rw [hf] at h
      dsimp only at h
      by_cases hd : dim > 0 ∧ vec.length ≠ dim
      · rw [if_pos hd] at h; simp at h
      · rw [if_neg hd] at h
        cases hrest : embed dim fetch ts with
        | error e => rw [hrest] at h; simp at h
        | ok rest =>
          rw [hrest] at h
          dsimp only at h
          injection h with h
          subst h
          obtain ⟨hlen, hk⟩ := ih rest hrest
          refine ⟨by simp [hlen], ?_⟩
          intro k hkk
          cases k with
          | zero => simpa using hf
          | succ k => simpa using hk k (by simpa using hkk)

theorem embed_fails_on_bad (dim : Nat) (fetch : String → FetchResult) :
    ∀ texts : List String,
      ((∃ t ∈ texts, (fetch t).isFailure = true) ∨
        (dim ≠ 0 ∧ ∃ t ∈ texts, ∃ v, fetch t = FetchResult.success v ∧ v.length ≠ dim)) →
      ∃ e, embed dim fetch texts = Except.error e := by
  intro texts
  induction texts with
  | nil =>
    intro h
    rcases h with ⟨t, ht, _⟩ | ⟨_, t, ht, _⟩ <;> simp at ht
  | cons t0 ts ih =>
    intro h
    cases hf : fetch t0 with
    | failure e =>
      exact ⟨"call ollama embeddings API: " ++ e, by simp only [embed, hf]⟩
    | success vec =>
      by_cases hd : dim > 0 ∧ vec.length ≠ dim
      · exact ⟨"ollama embedding dimension mismatch", by simp only [embed, hf, if_pos hd]⟩
      · have hts : (∃ t ∈ ts, (fetch t).isFailure = true) ∨
            (dim ≠ 0 ∧ ∃ t ∈ ts, ∃ v, fetch t = FetchResult.success v ∧ v.length ≠ dim) := by
          rcases h with ⟨t, ht, hbad⟩ | ⟨hdim, t, ht, v, hv, hvlen⟩
          · rcases List.mem_cons.mp ht with rfl | hmem
            · rw [hf] at hbad; simp [FetchResult.isFailure] at hbad
            · exact Or.inl ⟨t, hmem, hbad⟩
          · rcases List.mem_cons.mp ht with rfl | hmem
            · rw [hf] at hv
              injection hv with hv
              subst hv
              exact absurd ⟨by omega, hvlen⟩ hd
            · exact Or.inr ⟨hdim, t, hmem, v, hv, hvlen⟩
        obtain ⟨e, he⟩ := ih hts
        exact ⟨e, by simp only [embed, hf, if_neg hd, he]⟩

/-- C6: a successful `Embed(texts)` returns one vector per input text, in the
same order; any single request failure, or — when the configured dimension is
non-zero — any decoded vector whose length differs from it, makes the entire
call return an error, so a partial vector list is never returned. -/
theorem C6_embed_all_or_nothing (dim : Nat) (fetch : String → FetchResult)
    (texts : List String) :
    (∀ vs, embed dim fetch texts = Except.ok vs →
      vs.length = texts.length ∧
      ∀ k, k < texts.length → fetch (texts.getD k "") = FetchResult.success (vs.getD k [])) ∧
    ((∃ t ∈ texts, (fetch t).isFailure = true) →
      ∃ e, embed dim fetch texts = Except.error e) ∧
    (dim ≠ 0 →
      (∃ t ∈ texts, ∃ v, fetch t = FetchResult.success v ∧ v.length ≠ dim) →
      ∃ e, embed dim fetch texts = Except.error e) :=
  ⟨fun vs h => embed_ok_spec dim fetch texts vs h,
    fun h => embed_fails_on_bad dim fetch texts (Or.inl h),
    fun hdim h => embed_fails_on_bad dim fetch texts (Or.inr ⟨hdim, h⟩)⟩

/-- Witness for C6: a concrete successful batch keeps length and order, and a
concrete failing request aborts the whole call. -/
theorem C6_witness :
    (embed 1 (fun t => if t = "a" then FetchResult.success [2] else FetchResult.success [3])
        ["a", "b"] = Except.ok [[2], [3]] ∧
      ([[2], [3]] : List (List ℚ)).length = (["a", "b"] : List String).length) ∧
    ((∃ t ∈ (["a", "b"] : List String),
        ((fun s => if s = "b" then FetchResult.failure "boom" else FetchResult.success [2]) t).isFailure
          = true) ∧
      ∃ e, embed 1 (fun s => if s = "b" then FetchResult.failure "boom" else FetchResult.success [2])
        ["a", "b"] = Except.error e) :=
  ⟨⟨rfl,
    (C6_embed_all_or_nothing 1
        (fun t => if t = "a" then FetchResult.success [2] else FetchResult.success [3])
        ["a", "b"]).1 [[2], [3]] rfl |>.1⟩,
    ⟨by decide,
      (C6_embed_all_or_nothing 1
        (fun s => if s = "b" then FetchResult.failure "boom" else FetchResult.success [2])
        ["a", "b"]).2.1 (by decide)⟩⟩

/-- C7: RefreshDocument fails immediately when either callback is missing,
before calling either; a chunker producing zero contents leads to an upsert
of empty lists without calling the embedder, clearing stale chunks and —
absent injected I/O failures — without error; and whenever the refresh
reports an error, the committed store state is unchanged. -/
theorem C7_refresh_document (D : Nat) (ε : Nat → Bool) (db : DB) (conv doc : String)
    (chunkFn : Option (Except String (List String)))
    (embedFn : Option (List String → Except String (List (List ℚ)))) (now : Nat) :
    ((chunkFn = none ∨ embedFn = none) →
      (refreshDocument D ε db conv doc chunkFn embedFn now).err.isSome = true ∧
      (refreshDocument D ε db conv doc chunkFn embedFn now).chunkCalled = false ∧
      (refreshDocument D ε db conv doc chunkFn embedFn now).embedCalled = false ∧
      (refreshDocument D ε db conv doc chunkFn embedFn now).db = db) ∧
    (∀ f, chunkFn = some (Except.ok []) → embedFn = some f →
      (refreshDocument D ε db conv doc chunkFn embedFn now).embedCalled = false ∧
      (refreshDocument D ε db conv doc chunkFn embedFn now).upsertCalled = true ∧
      (refreshDocument D noFail db conv doc chunkFn embedFn now).err = none ∧
      chunksFor (refreshDocument D noFail db conv doc chunkFn embedFn now).db conv doc = []) ∧
    ((refreshDocument D ε db conv doc chunkFn embedFn now).err.isSome = true →
      (refreshDocument D ε db conv doc chunkFn embedFn now).db = db) := by
  refine ⟨?_, ?_, ?_⟩
  · intro h
    rcases h with h | h
    · subst h; simp [refreshDocument]
    · subst h
      cases chunkFn with
      | none => simp [refreshDocument]
      | some chunkRes => simp [refreshDocument]
  · intro f hc he
    subst hc
    subst he
    have hok : (upsertDocumentChunks D noFail db conv doc [] [] now).err = none := by
      simp [upsertDocumentChunks, insertLoop, noFail]
    have hch := upsert_ok_chunksFor D noFail db conv doc [] [] now hok
    refine ⟨by simp [refreshDocument], by simp [refreshDocument], ?_, ?_⟩
    · simpa [refreshDocument] using hok
    · simpa [refreshDocument, mkRows] using hch
  · intro herr
    cases chunkFn with
    | none => simp [refreshDocument]
    | some chunkRes =>
      cases embedFn with
      | none => simp [refreshDocument]
      | some f =>
        cases chunkRes with
        | error e => simp [refreshDocument]
        | ok contents =>
          by_cases h0 : contents.length = 0
          · have herr2 : (upsertDocumentChunks D ε db conv doc [] [] now).err.isSome = true := by
              simpa [refreshDocument, h0] using herr
            have := upsert_err_db D ε db conv doc [] [] now herr2
            simpa [refreshDocument, h0] using this
          · cases hf : f contents with
            | error e => simp [refreshDocument, h0, hf]
            | ok vectors =>
              have herr2 : (upsertDocumentChunks D ε db conv doc contents vectors now).err.isSome
                  = true := by
                simpa [refreshDocument, h0, hf] using herr
              have := upsert_err_db D ε db conv doc contents vectors now herr2
              simpa [refreshDocument, h0, hf] using this

/-- Witness for C7: at a concrete store, a refresh with a zero-content
chunker clears the chunks of the pair without calling the embedder, and a missing
embedder fails immediately. -/
theorem C7_witness :
    (chunksFor (refreshDocument 1 noFail ⟨[⟨0, "c", "d", 0, "old", [9], 1⟩], 1⟩ "c" "d"
        (some (Except.ok [])) (some (fun _ => Except.ok [])) 5).db "c" "d" = []) ∧
    ((some (Except.ok []) : Option (Except String (List String))) = none ∨
        (none : Option (List String → Except String (List (List ℚ)))) = none) ∧
    (refreshDocument 1 noFail ⟨[⟨0, "c", "d", 0, "old", [9], 1⟩], 1⟩ "c" "d"
        (some (Except.ok [])) none 5).err.isSome = true :=
  ⟨((C7_refresh_document 1 noFail ⟨[⟨0, "c", "d", 0, "old", [9], 1⟩], 1⟩ "c" "d"
        (some (Except.ok [])) (some (fun _ => Except.ok [])) 5).2.1
      (fun _ => Except.ok []) rfl rfl).2.2.2,
    Or.inr rfl,
    ((C7_refresh_document 1 noFail ⟨[⟨0, "c", "d", 0, "old", [9], 1⟩], 1⟩ "c" "d"
        (some (Except.ok [])) none 5).1 (Or.inr rfl)).1⟩

theorem trimToLimit_eq_truncSpec (t : List Char) : trimToLimit t 8000 = truncSpec t := by
  unfold trimToLimit truncSpec
  by_cases h : t.length ≤ 8000
  · rw [if_pos h, List.take_of_length_le h]
  · rw [if_neg h]

theorem selectDocs_eq_amended :
    ∀ (ts : List (List Char)) (total : Nat),
      selectDocs ts total = greedyTake total ((ts.map truncSpec).filter (fun t => ! t.isEmpty)) := by
  intro ts
  induction ts with
  | nil => intro total; rfl
  | cons t ts ih =>
    intro total
    simp only [selectDocs, trimToLimit_eq_truncSpec, List.map_cons, List.filter_cons]
    by_cases he : truncSpec t = []
    · rw [if_pos he, he]
      simp only [List.isEmpty_nil, Bool.not_true, Bool.false_eq_true, if_false]
      exact ih total
    · rw [if_neg he]
      have hne : (! (truncSpec t).isEmpty) = true := by
        simp [List.isEmpty_iff, he]
      rw [hne]
      simp only [if_true]
      rw [greedyTake]
      by_cases hb : total + (truncSpec t).length > 24000
      · rw [if_pos hb, if_pos hb]
      · rw [if_neg hb, if_neg hb, ih (total + (truncSpec t).length)]

theorem mem_greedyTake :
    ∀ (ts : List (List Char)) (total : Nat) (d : List Char),
      d ∈ greedyTake total ts → d ∈ ts := by
  intro ts
  induction ts with
  | nil => intro total d h; simp [greedyTake] at h
  | cons t ts ih =>
    intro total d h
    rw [greedyTake] at h
    by_cases hb : total + t.length > 24000
    · rw [if_pos hb] at h; simp at h
    · rw [if_neg hb] at h
      rcases List.mem_cons.mp h with h | h
      · exact h ▸ List.mem_cons_self t ts
      · exact List.mem_cons_of_mem t (ih (total + t.length) d h)

theorem greedyTake_budget :
    ∀ (ts : List (List Char)) (total : Nat), total ≤ 24000 →
      total + totalLen (greedyTake total ts) ≤ 24000 := by
  intro ts
  induction ts with
  | nil => intro total h; simpa [greedyTake, totalLen] using h
  | cons t ts ih =>
    intro total h
    rw [greedyTake]
    by_cases hb : total + t.length > 24000
    · rw [if_pos hb]; simpa [totalLen] using h
    · rw [if_neg hb]
      have := ih (total + t.length) (by omega)
      simp only [totalLen, List.foldr_cons] at this ⊢
      omega

/-- C4 counterexample: with a single empty candidate text, the claim as
stated would include the (empty) candidate — its truncation fits every
budget — yet `buildPrompt` skips empty candidates entirely, so the assembled
message list differs from what the claim predicts at this input. -/
theorem C4_counterexample :
    ¬ (buildPrompt [] (some [[]]) = renderPrompt (specSelectStated [[]]) []) := by
  decide

/-- C4 (amended): the prompt assembler produces exactly one system message
first and the history verbatim after it, built from the candidate pool by
truncating each candidate to 8000 characters, skipping candidates that are
empty after truncation, and greedily appending the rest in order until the
next one would push the combined total past 24000, dropping all later
candidates; every included candidate is at most 8000 characters and the
included total is at most 24000. -/
theorem C4_prompt_assembly (history : List ChatMsg) (texts : List (List Char)) :
    buildPrompt history (some texts) = renderPrompt (specSelectAmended texts) history ∧
    (∀ d ∈ specSelectAmended texts, d.length ≤ 8000) ∧
    totalLen (specSelectAmended texts) ≤ 24000 := by
  refine ⟨?_, ?_, ?_⟩
  · show renderPrompt (selectDocs texts 0) history = _
    rw [selectDocs_eq_amended texts 0]
    rfl
  · intro d hd
    have h1 := mem_greedyTake _ 0 d hd
    have h2 := List.mem_of_mem_filter h1
    obtain ⟨x, _, hx⟩ := List.mem_map.mp h2
    rw [← hx]
    unfold truncSpec
    have := List.length_take 8000 x
    omega
  · simpa using greedyTake_budget ((texts.map truncSpec).filter (fun t => ! t.isEmpty)) 0
      (by omega)

/-- Witness for C4 at a concrete history and candidate pool. -/
theorem C4_witness :
    buildPrompt [⟨"user", "hi".toList⟩] (some ["alpha".toList, [], "beta".toList])
      = renderPrompt (specSelectAmended ["alpha".toList, [], "beta".toList])
          [⟨"user", "hi".toList⟩] ∧
    ("alpha".toList ∈ specSelectAmended ["alpha".toList, [], "beta".toList] ∧
      ("alpha".toList : List Char).length ≤ 8000) :=
  ⟨(C4_prompt_assembly [⟨"user", "hi".toList⟩] ["alpha".toList, [], "beta".toList]).1,
    by decide,
    (C4_prompt_assembly [⟨"user", "hi".toList⟩] ["alpha".toList, [], "beta".toList]).2.1
      "alpha".toList (by decide)⟩

/-- C9 counterexample: an error that does not arise from creation of the
approximate index but whose message mentions `ivfflat` is swallowed by
schema creation, so it does not swallow exactly the index-creation errors. -/
theorem C9_counterexample :
    ¬ (ensureSchema (some ⟨SchemaStep.createTable, "bad ivfflat thing"⟩) = none ↔
        (⟨SchemaStep.createTable, "bad ivfflat thing"⟩ : SchemaError).origin
          = SchemaStep.createIvfIndex) := by
  decide

/-- C9 (amended): schema creation swallows exactly the errors whose message
contains the substring `ivfflat` — regardless of which statement produced
them — and propagates every other error to the caller unchanged. -/
theorem C9_swallow_by_substring (outcome : Option SchemaError) :
    (ensureSchema outcome = none ↔
      outcome = none ∨ ∃ e, outcome = some e ∧ mentionsIvfflat e.msg = true) ∧
    (∀ e, outcome = some e → mentionsIvfflat e.msg = false →
      ensureSchema outcome = some e.msg) := by
  cases outcome with
  | none => simp [ensureSchema]
  | some e =>
    by_cases h : mentionsIvfflat e.msg = true
    · simp [ensureSchema, h]
    · simp only [Bool.not_eq_true] at h
      simp [ensureSchema, h]

/-- Witness for C9 (amended): a non-ivfflat error is propagated unchanged. -/
theorem C9_witness :
    mentionsIvfflat "relation does not exist" = false ∧
    ensureSchema (some ⟨SchemaStep.createTable, "relation does not exist"⟩)
      = some "relation does not exist" :=
  ⟨by decide,
    (C9_swallow_by_substring (some ⟨SchemaStep.createTable, "relation does not exist"⟩)).2
      ⟨SchemaStep.createTable, "relation does not exist"⟩ rfl (by decide)⟩

theorem rootCmpLE_iff (y x p s : ℚ) (hp : 0 < p) (hs : 0 < s) :
    rootCmpLE y x p s = true ↔
      (y : ℝ) * Real.sqrt (p : ℝ) ≤ (x : ℝ) * Real.sqrt (s : ℝ) := by
  have hpR : (0:ℝ) < (p:ℝ) := by exact_mod_cast hp
  have hsR : (0:ℝ) < (s:ℝ) := by exact_mod_cast hs
  have hP : (0:ℝ) < Real.sqrt (p:ℝ) := Real.sqrt_pos.mpr hpR
  have hS : (0:ℝ) < Real.sqrt (s:ℝ) := Real.sqrt_pos.mpr hsR
  have hP2 : Real.sqrt (p:ℝ) ^ 2 = (p:ℝ) := Real.sq_sqrt hpR.le
  have hS2 : Real.sqrt (s:ℝ) ^ 2 = (s:ℝ) := Real.sq_sqrt hsR.le
  unfold rootCmpLE
  by_cases hy : y ≤ 0
  · rw [if_pos hy]
    have hyR : (y:ℝ) ≤ 0 := by exact_mod_cast hy
    by_cases hx : 0 ≤ x
    · rw [if_pos hx]
      have hxR : (0:ℝ) ≤ (x:ℝ) := by exact_mod_cast hx
      simp only [true_iff]
      have h1 : (y:ℝ) * Real.sqrt (p:ℝ) ≤ 0 := mul_nonpos_of_nonpos_of_nonneg hyR hP.le
      have h2 : (0:ℝ) ≤ (x:ℝ) * Real.sqrt (s:ℝ) := mul_nonneg hxR hS.le
      linarith
    · rw [if_neg hx]
      push_neg at hx
      have hxR : (x:ℝ) < 0 := by exact_mod_cast hx
      simp only [decide_eq_true_eq]
      have e1 : (-((x:ℝ) * Real.sqrt (s:ℝ))) ^ 2 = (x:ℝ) ^ 2 * (s:ℝ) := by
        rw [neg_pow, mul_pow, hS2]; ring
      have e2 : (-((y:ℝ) * Real.sqrt (p:ℝ))) ^ 2 = (y:ℝ) ^ 2 * (p:ℝ) := by
        rw [neg_pow, mul_pow, hP2]; ring
      constructor
      · intro h
        have hcast : (x:ℝ) ^ 2 * (s:ℝ) ≤ (y:ℝ) ^ 2 * (p:ℝ) := by exact_mod_cast h
        have k2 : (0:ℝ) ≤ -((y:ℝ) * Real.sqrt (p:ℝ)) := by nlinarith
        have k3 : (-((x:ℝ) * Real.sqrt (s:ℝ))) ^ 2 ≤ (-((y:ℝ) * Real.sqrt (p:ℝ))) ^ 2 := by
          rw [e1, e2]; exact hcast
        have k4 := le_of_pow_le_pow_left₀ (by norm_num : (2:ℕ) ≠ 0) k2 k3
        linarith
      · intro h
        have k1 : (0:ℝ) ≤ -((x:ℝ) * Real.sqrt (s:ℝ)) := by nlinarith
        have k2 : -((x:ℝ) * Real.sqrt (s:ℝ)) ≤ -((y:ℝ) * Real.sqrt (p:ℝ)) := by linarith
        have k3 := pow_le_pow_left₀ k1 k2 2
        rw [e1, e2] at k3
        exact_mod_cast k3
  · rw [if_neg hy]
    push_neg at hy
    have hyR : (0:ℝ) < (y:ℝ) := by exact_mod_cast hy
    by_cases hx : x < 0
    · rw [if_pos hx]
      have hxR : (x:ℝ) < 0 := by exact_mod_cast hx
      simp only [Bool.false_eq_true, false_iff, not_le]
      have h1 : (x:ℝ) * Real.sqrt (s:ℝ) < 0 := mul_neg_of_neg_of_pos hxR hS
      have h2 : (0:ℝ) < (y:ℝ) * Real.sqrt (p:ℝ) := mul_pos hyR hP
      linarith
    · rw [if_neg hx]
      push_neg at hx
      have hxR : (0:ℝ) ≤ (x:ℝ) := by exact_mod_cast hx
      simp only [decide_eq_true_eq]
      have e1 : ((y:ℝ) * Real.sqrt (p:ℝ)) ^ 2 = (y:ℝ) ^ 2 * (p:ℝ) := by
        rw [mul_pow, hP2]
      have e2 : ((x:ℝ) * Real.sqrt (s:ℝ)) ^ 2 = (x:ℝ) ^ 2 * (s:ℝ) := by
        rw [mul_pow, hS2]
      constructor
      · intro h
        have hcast : (y:ℝ) ^ 2 * (p:ℝ) ≤ (x:ℝ) ^ 2 * (s:ℝ) := by exact_mod_cast h
        have k2 : (0:ℝ) ≤ (x:ℝ) * Real.sqrt (s:ℝ) := mul_nonneg hxR hS.le
        have k3 : ((y:ℝ) * Real.sqrt (p:ℝ)) ^ 2 ≤ ((x:ℝ) * Real.sqrt (s:ℝ)) ^ 2 := by
          rw [e1, e2]; exact hcast
        exact le_of_pow_le_pow_left₀ (by norm_num : (2:ℕ) ≠ 0) k2 k3
      · intro h
        have k1 : (0:ℝ) ≤ (y:ℝ) * Real.sqrt (p:ℝ) := mul_nonneg hyR.le hP.le
        have k3 := pow_le_pow_left₀ k1 h 2
        rw [e1, e2] at k3
        exact_mod_cast k3

theorem distLE_iff (q : List ℚ) (a b : Row) (hq : 0 < sqNorm q)
    (ha : 0 < sqNorm a.embedding) (hb : 0 < sqNorm b.embedding) :
    distLE q a b = true ↔ cosDist q a.embedding ≤ cosDist q b.embedding := by
  unfold distLE cosDist
  rw [rootCmpLE_iff _ _ _ _ ha hb]
  have hR : (0:ℝ) < Real.sqrt ((sqNorm q : ℚ) : ℝ) :=
    Real.sqrt_pos.mpr (by exact_mod_cast hq)
  have hPa : (0:ℝ) < Real.sqrt ((sqNorm a.embedding : ℚ) : ℝ) :=
    Real.sqrt_pos.mpr (by exact_mod_cast ha)
  have hPb : (0:ℝ) < Real.sqrt ((sqNorm b.embedding : ℚ) : ℝ) :=
    Real.sqrt_pos.mpr (by exact_mod_cast hb)
  rw [sub_le_sub_iff_left]
  rw [div_le_div_iff₀ (by positivity) (by positivity)]
  constructor
  · intro h
    nlinarith [mul_le_mul_of_nonneg_left h hR.le]
  · intro h
    have h2 : Real.sqrt ((sqNorm q : ℚ) : ℝ)
          * ((dotQ q b.embedding : ℝ) * Real.sqrt ((sqNorm a.embedding : ℚ) : ℝ))
        ≤ Real.sqrt ((sqNorm q : ℚ) : ℝ)
          * ((dotQ q a.embedding : ℝ) * Real.sqrt ((sqNorm b.embedding : ℚ) : ℝ)) := by
      nlinarith
    exact le_of_mul_le_mul_left h2 hR

theorem mem_insertLe {α : Type} (le : α → α → Bool) (a : α) :
    ∀ (l : List α) (x : α), x ∈ insertLe le a l ↔ x = a ∨ x ∈ l := by
  intro l
  induction l with
  | nil => intro x; simp [insertLe]
  | cons b bs ih =>
    intro x
    unfold insertLe
    by_cases h : le a b
    · rw [if_pos h]
      simp [List.mem_cons]
    · rw [if_neg h]
      simp only [List.mem_cons, ih x]
      tauto

theorem mem_sortLe {α : Type} (le : α → α → Bool) :
    ∀ (l : List α) (x : α), x ∈ sortLe le l ↔ x ∈ l := by
  intro l
  induction l with
  | nil => intro x; simp [sortLe]
  | cons b bs ih =>
    intro x
    unfold sortLe
    rw [mem_insertLe, ih, List.mem_cons]

theorem pairwise_insertLe {α : Type} {R : α → α → Prop} {le : α → α → Bool} {P : α → Prop}
    (htrans : ∀ x y z, R x y → R y z → R x z)
    (hbr : ∀ x y, P x → P y → (le x y = true → R x y) ∧ (le x y = false → R y x))
    {a : α} (ha : P a) :
    ∀ l : List α, (∀ x ∈ l, P x) → l.Pairwise R → (insertLe le a l).Pairwise R := by
  intro l
  induction l with
  | nil => intro _ _; simp [insertLe]
  | cons b bs ih =>
    intro hP hl
    have hPb : P b := hP b (List.mem_cons_self b bs)
    have hPbs : ∀ x ∈ bs, P x := fun x hx => hP x (List.mem_cons_of_mem b hx)
    rcases List.pairwise_cons.mp hl with ⟨hl1, hl2⟩
    unfold insertLe
    by_cases h : le a b
    · rw [if_pos h]
      apply List.pairwise_cons.mpr
      refine ⟨?_, hl⟩
      intro x hx
      rcases List.mem_cons.mp hx with rfl | hx
      · exact (hbr a x ha hPb).1 h
      · exact htrans a b x ((hbr a b ha hPb).1 h) (hl1 x hx)
    · rw [if_neg h]
      apply List.pairwise_cons.mpr
      constructor
      · intro x hx
        rcases (mem_insertLe le a bs x).mp hx with rfl | hx
        · exact (hbr x b ha hPb).2 (Bool.not_eq_true _ ▸ h)
        · exact hl1 x hx
      · exact ih hPbs hl2

theorem pairwise_sortLe {α : Type} {R : α → α → Prop} {le : α → α → Bool} {P : α → Prop}
    (htrans : ∀ x y z, R x y → R y z → R x z)
    (hbr : ∀ x y, P x → P y → (le x y = true → R x y) ∧ (le x y = false → R y x)) :
    ∀ l : List α, (∀ x ∈ l, P x) → (sortLe le l).Pairwise R := by
  intro l
  induction l with
  | nil => intro _; simp [sortLe]
  | cons b bs ih =>
    intro hP
    unfold sortLe
    apply pairwise_insertLe htrans hbr (hP b (List.mem_cons_self b bs))
    · intro x hx
      exact hP x (List.mem_cons_of_mem b ((mem_sortLe le bs x).mp hx))
    · exact ih (fun x hx => hP x (List.mem_cons_of_mem b hx))

/-- C5: for a query vector of length D (and nonzero stored and query
vectors, so that cosine distance is defined), QuerySimilar succeeds and
returns at most `limit` chunks, all stored rows of the conversation, ordered
by ascending cosine distance to the query, each with score equal to one minus
its cosine distance; when the conversation has no chunks the result is empty
without error. -/
theorem C5_query_similar_ordering (D : Nat) (db : DB) (conv : String) (q : List ℚ)
    (limit : Nat) (hq : q.length = D) (hqn : 0 < sqNorm q)
    (hrows : ∀ r ∈ db.rows, r.conversationId = conv → 0 < sqNorm r.embedding) :
    ∃ res, (querySimilar D db conv q limit).1 = Except.ok res ∧
      res.length ≤ limit ∧
      (∀ r ∈ res, r ∈ db.rows ∧ r.conversationId = conv) ∧
      res.Pairwise (fun a b => cosDist q a.embedding ≤ cosDist q b.embedding) ∧
      (∀ r ∈ res, queryScore q r = 1 - cosDist q r.embedding) ∧
      (chunksOfConv db conv = [] → res = []) := by
  have hq2 : ¬ q.length ≠ D := by omega
  refine ⟨(sortLe (distLE q) (chunksOfConv db conv)).take limit, ?_, ?_, ?_, ?_, ?_, ?_⟩
  · simp [querySimilar, hq2]
  · exact List.length_take_le limit _
  · intro r hr
    have h1 : r ∈ sortLe (distLE q) (chunksOfConv db conv) := List.take_subset limit _ hr
    have h2 : r ∈ chunksOfConv db conv := (mem_sortLe (distLE q) _ r).mp h1
    have h3 := List.mem_filter.mp h2
    exact ⟨h3.1, by simpa using h3.2⟩
  · apply List.Pairwise.sublist (List.take_sublist limit _)
    apply pairwise_sortLe (P := fun r => r ∈ db.rows ∧ r.conversationId = conv)
    · intro x y z hxy hyz
      exact le_trans hxy hyz
    · intro x y hx hy
      have hxn := hrows x hx.1 hx.2
      have hyn := hrows y hy.1 hy.2
      constructor
      · exact fun h => (distLE_iff q x y hqn hxn hyn).mp h
      · intro h
        apply le_of_not_le
        intro hc
        have := (distLE_iff q x y hqn hxn hyn).mpr hc
        rw [h] at this
        exact Bool.false_ne_true this
    · intro x hx
      have h2 := List.mem_filter.mp hx
      exact ⟨h2.1, by simpa using h2.2⟩
  · intro r _
    rfl
  · intro h
    rw [h]
    simp [sortLe]

/-- Witness for C5: the query over a concrete two-chunk conversation with a
dimension-1 query vector of positive norm satisfies the claimed conclusion. -/
theorem C5_witness :
    (([4] : List ℚ).length = 1 ∧ (0 : ℚ) < sqNorm [4] ∧
      (∀ r ∈ ([⟨0, "c", "d", 0, "a", [2], 1⟩, ⟨1, "c", "d", 1, "b", [-3], 1⟩] : List Row),
        r.conversationId = "c" → 0 < sqNorm r.embedding)) ∧
    (∃ res, (querySimilar 1 ⟨[⟨0, "c", "d", 0, "a", [2], 1⟩, ⟨1, "c", "d", 1, "b", [-3], 1⟩], 2⟩
          "c" [4] 2).1 = Except.ok res ∧
      res.length ≤ 2 ∧
      (∀ r ∈ res, r ∈ ([⟨0, "c", "d", 0, "a", [2], 1⟩, ⟨1, "c", "d", 1, "b", [-3], 1⟩] : List Row)
          ∧ r.conversationId = "c") ∧
      res.Pairwise (fun a b => cosDist [4] a.embedding ≤ cosDist [4] b.embedding) ∧
      (∀ r ∈ res, queryScore [4] r = 1 - cosDist [4] r.embedding) ∧
      (chunksOfConv ⟨[⟨0, "c", "d", 0, "a", [2], 1⟩, ⟨1, "c", "d", 1, "b", [-3], 1⟩], 2⟩ "c" = []
        → res = [])) :=
  ⟨⟨by decide, by simp [sqNorm, dotQ], by simp [sqNorm, dotQ]⟩,
    C5_query_similar_ordering 1
      ⟨[⟨0, "c", "d", 0, "a", [2], 1⟩, ⟨1, "c", "d", 1, "b", [-3], 1⟩], 2⟩ "c" [4] 2
      (by decide) (by simp [sqNorm, dotQ]) (by simp [sqNorm, dotQ])⟩
